import Mathlib

set_option linter.unusedVariables false

/-!
Embedding of the CHIP-8 emulator core (crate `chip8`: `cpu.rs`, `bus.rs`,
`beep.rs`). Machine integers are modeled as `Nat` with explicit masks:
`& 0x0FFF` on a `u16` is `% 0x1000`, wrapping `u8` arithmetic is `% 256`,
wrapping `u16` arithmetic is `% 65536`. Rust slice/array indexing that can go
out of bounds (a panic) is modeled with `Option`: `none` is the panic.
The random byte drawn by CXNN is passed in as an explicit `rnd` parameter.
-/

namespace Chip8

def V_SIZE : Nat := 16
def STACK_SIZE : Nat := 16
def SPRITE_ADDR : Nat := 0x000
def PC_INIT : Nat := 0x0200

def DISPLAY_WIDTH : Nat := 64
def DISPLAY_HEIGHT : Nat := 32
def KEYPAD_SIZE : Nat := 16

/-- Register-file update, modelling the Rust assignment `self.v[idx] = val`. -/
def vset (v : Nat → Nat) (idx val : Nat) : Nat → Nat :=
  fun j => if j = idx then val else v j

/-- CPU state (`struct Cpu` in cpu.rs). The `v` registers are a total map;
the code only ever indexes them with opcode nibbles (< 16). The call stack is
a list whose head is the top (`Vec::push`/`Vec::pop`). -/
structure Cpu where
  pc : Nat
  i : Nat
  v : Nat → Nat
  stack : List Nat
  key_await : Option Nat

/-- Peripheral store (`struct Bus` in bus.rs): `memory: [u8; 0x1000]`,
`vram: [[bool; 32]; 64]`, `keys: [bool; 16]`, plus the two 8-bit counters. -/
structure Bus where
  memory : Nat → Nat
  vram : Nat → Nat → Bool
  keys : Nat → Bool
  delay : Nat
  beep : Nat

/-- `Bus::read_byte`: `self.memory[addr as usize]`; the index panics (none)
for `addr ≥ 0x1000`. -/
def Bus.read_byte (b : Bus) (addr : Nat) : Option Nat :=
  if addr < 0x1000 then some (b.memory addr) else none

/-- `Bus::write_byte`: `self.memory[addr as usize] = byte`; panics (none) for
`addr ≥ 0x1000`. -/
def Bus.write_byte (b : Bus) (addr byte : Nat) : Option Bus :=
  if addr < 0x1000 then
    some { b with memory := fun a => if a = addr then byte else b.memory a }
  else none

/-- `Bus::read_keypad`: `self.keys[key as usize]`; panics (none) for
`key ≥ 16`. -/
def Bus.read_keypad (b : Bus) (key : Nat) : Option Bool :=
  if key < KEYPAD_SIZE then some (b.keys key) else none

/-- `Bus::clear_screen`. -/
def Bus.clear_screen (b : Bus) : Bus :=
  { b with vram := fun _ _ => false }

/-- `Bus::read_screen`: `self.vram[x % 64][y % 32]`. -/
def Bus.read_screen (b : Bus) (x y : Nat) : Bool :=
  b.vram (x % DISPLAY_WIDTH) (y % DISPLAY_HEIGHT)

/-- `Bus::write_screen`: `self.vram[x % 64][y % 32] = pixel`. -/
def Bus.write_screen (b : Bus) (x y : Nat) (pixel : Bool) : Bus :=
  { b with vram := fun a r =>
      if a = x % DISPLAY_WIDTH ∧ r = y % DISPLAY_HEIGHT then pixel
      else b.vram a r }

/-- `Bus::read_timer`. -/
def Bus.read_timer (b : Bus) : Nat := b.delay

/-- `Bus::write_timer`. -/
def Bus.write_timer (b : Bus) (value : Nat) : Bus := { b with delay := value }

/-- `Bus::write_sound` (sound counter, field `beep`). -/
def Bus.write_sound (b : Bus) (value : Nat) : Bus := { b with beep := value }

/-- `BeeperBus::read_sound` for `Bus`. -/
def Bus.read_sound (b : Bus) : Nat := b.beep

/-- `FONT4X5` from bus.rs: 16 glyphs × 5 bytes. -/
def FONT4X5 : List Nat :=
  [0xF0, 0x90, 0x90, 0x90, 0xF0,
   0x20, 0x60, 0x20, 0x20, 0x70,
   0xF0, 0x10, 0xF0, 0x80, 0xF0,
   0xF0, 0x10, 0xF0, 0x10, 0xF0,
   0x90, 0x90, 0xF0, 0x10, 0x10,
   0xF0, 0x80, 0xF0, 0x10, 0xF0,
   0xF0, 0x80, 0xF0, 0x90, 0xF0,
   0xF0, 0x10, 0x20, 0x40, 0x40,
   0xF0, 0x90, 0xF0, 0x90, 0xF0,
   0xF0, 0x90, 0xF0, 0x10, 0xF0,
   0xF0, 0x90, 0xF0, 0x90, 0x90,
   0xE0, 0x90, 0xE0, 0x90, 0xE0,
   0xF0, 0x80, 0x80, 0x80, 0xF0,
   0xE0, 0x90, 0x90, 0x90, 0xE0,
   0xF0, 0x80, 0xF0, 0x80, 0xF0,
   0xF0, 0x80, 0xF0, 0x80, 0x80]

/-- `Bus::new`: zeroed memory, font table burned in at `SPRITE_ADDR`, ROM
bytes loaded verbatim starting at 0x200, cleared screen, no keys, counters 0.
(The font and ROM regions are disjoint, so lookup order is immaterial.) -/
def Bus.new (rom : List Nat) : Bus :=
  { memory := fun a =>
      if 0x200 ≤ a ∧ a < 0x200 + rom.length then rom.getD (a - 0x200) 0
      else if a - SPRITE_ADDR < FONT4X5.length then FONT4X5.getD (a - SPRITE_ADDR) 0
      else 0
    vram := fun _ _ => false
    keys := fun _ => false
    delay := 0
    beep := 0 }

/-- `Cpu::new`. -/
def Cpu.new : Cpu :=
  { pc := PC_INIT, i := 0, v := fun _ => 0, stack := [], key_await := none }

/-- `Cpu::reset`: pc to `PC_INIT`, `i` and all registers zeroed, stack
cleared, key wait cleared. -/
def Cpu.reset (c : Cpu) : Cpu :=
  { c with pc := PC_INIT, i := 0, v := fun _ => 0, stack := [],
           key_await := none }

/-- `Cpu::pc_read_byte`: read at `pc` (may panic), then
`pc = (pc + 1) & 0x0FFF`. -/
def Cpu.pc_read_byte (c : Cpu) (b : Bus) : Option (Nat × Cpu) :=
  match b.read_byte c.pc with
  | some byte => some (byte, { c with pc := (c.pc + 1) % 0x1000 })
  | none => none

/-- `Cpu::pc_read_word`: two byte reads, combined big-endian
(`(low as u16) << 8 | high as u16`; the first byte read is the high half). -/
def Cpu.pc_read_word (c : Cpu) (b : Bus) : Option (Nat × Cpu) :=
  match c.pc_read_byte b with
  | some (low, c1) =>
    match c1.pc_read_byte b with
    | some (high, c2) => some (low * 256 + high, c2)
    | none => none
  | none => none

/-- `Cpu::opcode_0nnn`: not implemented, trace only. -/
def Cpu.opcode_0nnn (c : Cpu) (nnn : Nat) : Cpu := c

/-- `Cpu::opcode_00e0`: clear the screen. -/
def Cpu.opcode_00e0 (c : Cpu) (b : Bus) : Cpu × Bus := (c, b.clear_screen)

/-- `Cpu::opcode_00ee`: pop the stack into `pc`; on an empty stack only a
warning is logged and the state is untouched. -/
def Cpu.opcode_00ee (c : Cpu) : Cpu :=
  match c.stack with
  | addr :: rest => { c with pc := addr, stack := rest }
  | [] => c

/-- `Cpu::opcode_1nnn`: `pc = nnn & 0x0FFF`. -/
def Cpu.opcode_1nnn (c : Cpu) (nnn : Nat) : Cpu := { c with pc := nnn % 0x1000 }

/-- `Cpu::opcode_2nnn`: push `pc`, `pc = nnn` (no mask in the source). -/
def Cpu.opcode_2nnn (c : Cpu) (nnn : Nat) : Cpu :=
  { c with stack := c.pc :: c.stack, pc := nnn }

/-- `Cpu::opcode_3xnn`: skip (`pc.wrapping_add(2)`, i.e. mod 2^16) if
`v[x] == nn`. -/
def Cpu.opcode_3xnn (c : Cpu) (x nn : Nat) : Cpu :=
  if c.v x = nn then { c with pc := (c.pc + 2) % 65536 } else c

/-- `Cpu::opcode_4xnn`: skip if `v[x] != nn`. -/
def Cpu.opcode_4xnn (c : Cpu) (x nn : Nat) : Cpu :=
  if c.v x ≠ nn then { c with pc := (c.pc + 2) % 65536 } else c

/-- `Cpu::opcode_5xy0`: skip if `v[x] == v[y]`. -/
def Cpu.opcode_5xy0 (c : Cpu) (x y : Nat) : Cpu :=
  if c.v x = c.v y then { c with pc := (c.pc + 2) % 65536 } else c

/-- `Cpu::opcode_6xnn`: `v[x] = nn`. -/
def Cpu.opcode_6xnn (c : Cpu) (x nn : Nat) : Cpu :=
  { c with v := vset c.v x nn }

/-- `Cpu::opcode_7xnn`: `v[x] = v[x].wrapping_add(nn)`. -/
def Cpu.opcode_7xnn (c : Cpu) (x nn : Nat) : Cpu :=
  { c with v := vset c.v x ((c.v x + nn) % 256) }

/-- `Cpu::opcode_8xy0`: `v[x] = v[y]`. -/
def Cpu.opcode_8xy0 (c : Cpu) (x y : Nat) : Cpu :=
  { c with v := vset c.v x (c.v y) }

/-- `Cpu::opcode_8xy1`: `v[x] |= v[y]`. -/
def Cpu.opcode_8xy1 (c : Cpu) (x y : Nat) : Cpu :=
  { c with v := vset c.v x (c.v x ||| c.v y) }

/-- `Cpu::opcode_8xy2`: `v[x] &= v[y]`. -/
def Cpu.opcode_8xy2 (c : Cpu) (x y : Nat) : Cpu :=
  { c with v := vset c.v x (c.v x &&& c.v y) }

/-- `Cpu::opcode_8xy3`: `v[x] ^= v[y]`. -/
def Cpu.opcode_8xy3 (c : Cpu) (x y : Nat) : Cpu :=
  { c with v := vset c.v x (c.v x ^^^ c.v y) }

/-- `Cpu::opcode_8xy4`: `overflowing_add`, result into `v[x]`, then the carry
flag (computed from the pre-instruction operands) into `v[0xF]`. -/
def Cpu.opcode_8xy4 (c : Cpu) (x y : Nat) : Cpu :=
  let res := (c.v x + c.v y) % 256
  let v1 := vset c.v x res
  { c with v := vset v1 0xF (if 256 ≤ c.v x + c.v y then 0x01 else 0x00) }

/-- `Cpu::opcode_8xy5`: `v[x].overflowing_sub(v[y])`, result into `v[x]`,
then the (inverted) borrow flag into `v[0xF]`. -/
def Cpu.opcode_8xy5 (c : Cpu) (x y : Nat) : Cpu :=
  let res := (c.v x + 256 - c.v y) % 256
  let v1 := vset c.v x res
  { c with v := vset v1 0xF (if c.v x < c.v y then 0x00 else 0x01) }

/-- `Cpu::opcode_8xy6`: `v[x] = v[y] >> 1` and then
`v[0xF] = v[y] & 0x01` — note the flag line reads `v[y]` after the first
write, which matters when `x == y`. -/
def Cpu.opcode_8xy6 (c : Cpu) (x y : Nat) : Cpu :=
  let v1 := vset c.v x (c.v y / 2)
  { c with v := vset v1 0xF (v1 y % 2) }

/-- `Cpu::opcode_8xy7`: `v[y].overflowing_sub(v[x])`, result into `v[x]`,
then the (inverted) borrow flag into `v[0xF]`. -/
def Cpu.opcode_8xy7 (c : Cpu) (x y : Nat) : Cpu :=
  let res := (c.v y + 256 - c.v x) % 256
  let v1 := vset c.v x res
  { c with v := vset v1 0xF (if c.v y < c.v x then 0x00 else 0x01) }

/-- `Cpu::opcode_8xye`: `v[x] = v[y] << 1` (u8, so mod 256) and then
`v[0xF] = (v[y] & 0x80) >> 7` — again reading `v[y]` after the first
write. -/
def Cpu.opcode_8xye (c : Cpu) (x y : Nat) : Cpu :=
  let v1 := vset c.v x (c.v y * 2 % 256)
  { c with v := vset v1 0xF (v1 y / 128 % 2) }

/-- `Cpu::opcode_9xy0`: skip if `v[x] != v[y]`. -/
def Cpu.opcode_9xy0 (c : Cpu) (x y : Nat) : Cpu :=
  if c.v x ≠ c.v y then { c with pc := (c.pc + 2) % 65536 } else c

/-- `Cpu::opcode_annn`: `i = nnn`. -/
def Cpu.opcode_annn (c : Cpu) (nnn : Nat) : Cpu := { c with i := nnn }

/-- `Cpu::opcode_bnnn`: `pc = nnn.wrapping_add(v[0] as u16)` — mod 2^16, no
12-bit mask. -/
def Cpu.opcode_bnnn (c : Cpu) (nnn : Nat) : Cpu :=
  { c with pc := (nnn + c.v 0) % 65536 }

/-- `Cpu::opcode_cxnn`: `v[x] = random::<u8>() & nn`; the random byte is the
explicit parameter `rnd`. -/
def Cpu.opcode_cxnn (c : Cpu) (x nn rnd : Nat) : Cpu :=
  { c with v := vset c.v x (rnd % 256 &&& nn) }

/-- One iteration of the inner `for w in 0..8` loop of `Cpu::opcode_dxyn`.
`yy` is the row's y coordinate `v[y].wrapping_add(h)`, computed once per row
in the source; the x coordinate re-reads `v[x]` at every pixel. The toggle
test is `(sprite_line << w) & 0x80 > 0` on u8. -/
def draw_pixel (x yy sprite_line : Nat) (st : Cpu × Bus) (w : Nat) : Cpu × Bus :=
  let c := st.1
  let b := st.2
  let xx := (c.v x + w) % 256
  if 0 < sprite_line * 2 ^ w % 256 &&& 0x80 then
    let pixel := b.read_screen xx yy
    let c1 := if pixel then { c with v := vset c.v 0xF 0x1 } else c
    (c1, b.write_screen xx yy (!pixel))
  else st

/-- The inner `for w in 0..8` loop for one sprite row. -/
def draw_row (x yy sprite_line : Nat) (st : Cpu × Bus) : Cpu × Bus :=
  (List.range 8).foldl (draw_pixel x yy sprite_line) st

/-- One iteration of the outer `for h in 0..n` loop of `Cpu::opcode_dxyn`:
read the sprite byte at `i.wrapping_add(h)` (a fallible memory read), then
draw the row. -/
def dxyn_row (x y : Nat) (st : Cpu × Bus) (h : Nat) : Option (Cpu × Bus) :=
  match st.2.read_byte ((st.1.i + h) % 65536) with
  | some sprite_line =>
      some (draw_row x ((st.1.v y + h) % 256) sprite_line st)
  | none => none

/-- `Cpu::opcode_dxyn`: `v[0xF] = 0`, then the row loop. -/
def Cpu.opcode_dxyn (c : Cpu) (b : Bus) (x y n : Nat) : Option (Cpu × Bus) :=
  (List.range n).foldlM (dxyn_row x y) ({ c with v := vset c.v 0xF 0x0 }, b)

/-- `Cpu::opcode_ex9e`: skip if key `v[x]` is pressed (`read_keypad` panics
for `v[x] ≥ 16`). -/
def Cpu.opcode_ex9e (c : Cpu) (b : Bus) (x : Nat) : Option Cpu :=
  match b.read_keypad (c.v x) with
  | some pressed =>
      some (if pressed then { c with pc := (c.pc + 2) % 65536 } else c)
  | none => none

/-- `Cpu::opcode_exa1`: skip if key `v[x]` is not pressed. -/
def Cpu.opcode_exa1 (c : Cpu) (b : Bus) (x : Nat) : Option Cpu :=
  match b.read_keypad (c.v x) with
  | some pressed =>
      some (if !pressed then { c with pc := (c.pc + 2) % 65536 } else c)
  | none => none

/-- `Cpu::opcode_fx07`: `v[x] = delay`. -/
def Cpu.opcode_fx07 (c : Cpu) (b : Bus) (x : Nat) : Cpu :=
  { c with v := vset c.v x b.read_timer }

/-- `Cpu::opcode_fx0a`: arm the key-wait latch for register `x`. -/
def Cpu.opcode_fx0a (c : Cpu) (x : Nat) : Cpu :=
  { c with key_await := some x }

/-- `Cpu::opcode_fx15`: `delay = v[x]`. -/
def Cpu.opcode_fx15 (c : Cpu) (b : Bus) (x : Nat) : Cpu × Bus :=
  (c, b.write_timer (c.v x))

/-- `Cpu::opcode_fx18`: `sound = v[x]`. -/
def Cpu.opcode_fx18 (c : Cpu) (b : Bus) (x : Nat) : Cpu × Bus :=
  (c, b.write_sound (c.v x))

/-- `Cpu::opcode_fx1e`: `i += v[x] as u16; i &= 0x0FFF` (the u16 sum stays
below 2^16 for in-range operands; `% 65536` is the u16 wrap). -/
def Cpu.opcode_fx1e (c : Cpu) (x : Nat) : Cpu :=
  { c with i := (c.i + c.v x) % 65536 % 0x1000 }

/-- `Cpu::opcode_fx29`: `i = SPRITE_ADDR + v[x] as u16 * 5; i &= 0x0FFF`. -/
def Cpu.opcode_fx29 (c : Cpu) (x : Nat) : Cpu :=
  { c with i := (SPRITE_ADDR + c.v x * 5) % 65536 % 0x1000 }

/-- `Cpu::opcode_fx33`: BCD digits of `v[x]` written at `i + 2`, `i + 1`,
`i` — in that order, with the unmasked u16 sums `i + 2` and `i + 1` as
addresses (fallible writes). -/
def Cpu.opcode_fx33 (c : Cpu) (b : Bus) (x : Nat) : Option (Cpu × Bus) :=
  let value := c.v x
  match b.write_byte ((c.i + 2) % 65536) (value % 10) with
  | some b1 =>
    match b1.write_byte ((c.i + 1) % 65536) (value / 10 % 10) with
    | some b2 =>
      match b2.write_byte c.i (value / 100) with
      | some b3 => some (c, b3)
      | none => none
    | none => none
  | none => none

/-- `Cpu::opcode_fx55`: write `v[0..=x]` at `i.wrapping_add(addr)` for
`addr in 0..=x` (fallible), then `i += x + 1; i &= 0x0FFF`. -/
def Cpu.opcode_fx55 (c : Cpu) (b : Bus) (x : Nat) : Option (Cpu × Bus) :=
  match (List.range (x + 1)).foldlM
      (fun bb addr => bb.write_byte ((c.i + addr) % 65536) (c.v addr)) b with
  | some b1 => some ({ c with i := (c.i + x + 1) % 65536 % 0x1000 }, b1)
  | none => none

/-- `Cpu::opcode_fx65`: load `v[0..=x]` from `i.wrapping_add(addr)`
(fallible reads), then `i += x + 1; i &= 0x0FFF`. -/
def Cpu.opcode_fx65 (c : Cpu) (b : Bus) (x : Nat) : Option (Cpu × Bus) :=
  match (List.range (x + 1)).foldlM
      (fun vv addr =>
        (b.read_byte ((c.i + addr) % 65536)).map fun byte => vset vv addr byte)
      c.v with
  | some v1 => some ({ c with v := v1, i := (c.i + x + 1) % 65536 % 0x1000 }, b)
  | none => none

/-- `Cpu::execute`: nibble split and the 35-arm dispatch. The source's match
over `(n0, n1, n2, n3)` is rendered as an ordered condition chain in the
source's arm order (a Rust match tries its literal patterns first-match-wins,
which is exactly this chain); an unmatched opcode is a no-op. -/
def Cpu.execute (c : Cpu) (b : Bus) (opcode rnd : Nat) : Option (Cpu × Bus) :=
  if (opcode / 4096 % 16) = 0x0 ∧ (opcode / 256 % 16) = 0x0 ∧ (opcode / 16 % 16) = 0xe ∧ (opcode % 16) = 0x0 then some (c.opcode_00e0 b)
  else if (opcode / 4096 % 16) = 0x0 ∧ (opcode / 256 % 16) = 0x0 ∧ (opcode / 16 % 16) = 0xe ∧ (opcode % 16) = 0xe then some (c.opcode_00ee, b)
  else if (opcode / 4096 % 16) = 0x0 then some (c.opcode_0nnn (opcode % 0x1000), b)
  else if (opcode / 4096 % 16) = 0x1 then some (c.opcode_1nnn (opcode % 0x1000), b)
  else if (opcode / 4096 % 16) = 0x2 then some (c.opcode_2nnn (opcode % 0x1000), b)
  else if (opcode / 4096 % 16) = 0x3 then some (c.opcode_3xnn (opcode / 256 % 16) (opcode % 0x100), b)
  else if (opcode / 4096 % 16) = 0x4 then some (c.opcode_4xnn (opcode / 256 % 16) (opcode % 0x100), b)
  else if (opcode / 4096 % 16) = 0x5 ∧ (opcode % 16) = 0x0 then some (c.opcode_5xy0 (opcode / 256 % 16) (opcode / 16 % 16), b)
  else if (opcode / 4096 % 16) = 0x6 then some (c.opcode_6xnn (opcode / 256 % 16) (opcode % 0x100), b)
  else if (opcode / 4096 % 16) = 0x7 then some (c.opcode_7xnn (opcode / 256 % 16) (opcode % 0x100), b)
  else if (opcode / 4096 % 16) = 0x8 ∧ (opcode % 16) = 0x0 then some (c.opcode_8xy0 (opcode / 256 % 16) (opcode / 16 % 16), b)
  else if (opcode / 4096 % 16) = 0x8 ∧ (opcode % 16) = 0x1 then some (c.opcode_8xy1 (opcode / 256 % 16) (opcode / 16 % 16), b)
  else if (opcode / 4096 % 16) = 0x8 ∧ (opcode % 16) = 0x2 then some (c.opcode_8xy2 (opcode / 256 % 16) (opcode / 16 % 16), b)
  else if (opcode / 4096 % 16) = 0x8 ∧ (opcode % 16) = 0x3 then some (c.opcode_8xy3 (opcode / 256 % 16) (opcode / 16 % 16), b)
  else if (opcode / 4096 % 16) = 0x8 ∧ (opcode % 16) = 0x4 then some (c.opcode_8xy4 (opcode / 256 % 16) (opcode / 16 % 16), b)
  else if (opcode / 4096 % 16) = 0x8 ∧ (opcode % 16) = 0x5 then some (c.opcode_8xy5 (opcode / 256 % 16) (opcode / 16 % 16), b)
  else if (opcode / 4096 % 16) = 0x8 ∧ (opcode % 16) = 0x6 then some (c.opcode_8xy6 (opcode / 256 % 16) (opcode / 16 % 16), b)
  else if (opcode / 4096 % 16) = 0x8 ∧ (opcode % 16) = 0x7 then some (c.opcode_8xy7 (opcode / 256 % 16) (opcode / 16 % 16), b)
  else if (opcode / 4096 % 16) = 0x8 ∧ (opcode % 16) = 0xe then some (c.opcode_8xye (opcode / 256 % 16) (opcode / 16 % 16), b)
  else if (opcode / 4096 % 16) = 0x9 ∧ (opcode % 16) = 0x0 then some (c.opcode_9xy0 (opcode / 256 % 16) (opcode / 16 % 16), b)
  else if (opcode / 4096 % 16) = 0xa then some (c.opcode_annn (opcode % 0x1000), b)
  else if (opcode / 4096 % 16) = 0xb then some (c.opcode_bnnn (opcode % 0x1000), b)
  else if (opcode / 4096 % 16) = 0xc then some (c.opcode_cxnn (opcode / 256 % 16) (opcode % 0x100) rnd, b)
  else if (opcode / 4096 % 16) = 0xd then c.opcode_dxyn b (opcode / 256 % 16) (opcode / 16 % 16) (opcode % 16)
  else if (opcode / 4096 % 16) = 0xe ∧ (opcode / 16 % 16) = 0x9 ∧ (opcode % 16) = 0xe then (c.opcode_ex9e b (opcode / 256 % 16)).map fun c1 => (c1, b)
  else if (opcode / 4096 % 16) = 0xe ∧ (opcode / 16 % 16) = 0xa ∧ (opcode % 16) = 0x1 then (c.opcode_exa1 b (opcode / 256 % 16)).map fun c1 => (c1, b)
  else if (opcode / 4096 % 16) = 0xf ∧ (opcode / 16 % 16) = 0x0 ∧ (opcode % 16) = 0x7 then some (c.opcode_fx07 b (opcode / 256 % 16), b)
  else if (opcode / 4096 % 16) = 0xf ∧ (opcode / 16 % 16) = 0x0 ∧ (opcode % 16) = 0xa then some (c.opcode_fx0a (opcode / 256 % 16), b)
  else if (opcode / 4096 % 16) = 0xf ∧ (opcode / 16 % 16) = 0x1 ∧ (opcode % 16) = 0x5 then some (c.opcode_fx15 b (opcode / 256 % 16))
  else if (opcode / 4096 % 16) = 0xf ∧ (opcode / 16 % 16) = 0x1 ∧ (opcode % 16) = 0x8 then some (c.opcode_fx18 b (opcode / 256 % 16))
  else if (opcode / 4096 % 16) = 0xf ∧ (opcode / 16 % 16) = 0x1 ∧ (opcode % 16) = 0xe then some (c.opcode_fx1e (opcode / 256 % 16), b)
  else if (opcode / 4096 % 16) = 0xf ∧ (opcode / 16 % 16) = 0x2 ∧ (opcode % 16) = 0x9 then some (c.opcode_fx29 (opcode / 256 % 16), b)
  else if (opcode / 4096 % 16) = 0xf ∧ (opcode / 16 % 16) = 0x3 ∧ (opcode % 16) = 0x3 then c.opcode_fx33 b (opcode / 256 % 16)
  else if (opcode / 4096 % 16) = 0xf ∧ (opcode / 16 % 16) = 0x5 ∧ (opcode % 16) = 0x5 then c.opcode_fx55 b (opcode / 256 % 16)
  else if (opcode / 4096 % 16) = 0xf ∧ (opcode / 16 % 16) = 0x6 ∧ (opcode % 16) = 0x5 then c.opcode_fx65 b (opcode / 256 % 16)
  else some (c, b)

/-- `Cpu::emulate` — the step operation. If the key-wait latch is armed,
scan keypad indices 0..15 in ascending order (the `for`-with-`break` loop)
and do nothing else this call; otherwise fetch and execute one opcode. -/
def Cpu.emulate (c : Cpu) (b : Bus) (rnd : Nat) : Option (Cpu × Bus) :=
  match c.key_await with
  | some x =>
    match (List.range KEYPAD_SIZE).find? (fun key => b.keys key) with
    | some key => some ({ c with v := vset c.v x key, key_await := none }, b)
    | none => some (c, b)
  | none =>
    match c.pc_read_word b with
    | some (opcode, c1) => c1.execute b opcode rnd
    | none => none

/-- Sound unit (`struct Beeper` in beep.rs). -/
structure Beeper where
  beep : Bool

/-- `Beeper::new`. -/
def Beeper.new : Beeper := { beep := false }

/-- `Beeper::update`: sample the counter, latch `counter > 0`, and decrement
the counter when the latch is set. -/
def Beeper.update (bp : Beeper) (b : Bus) : Beeper × Bus :=
  let value := b.read_sound
  let beep := decide (0 < value)
  ({ beep := beep }, if beep then b.write_sound (value - 1) else b)

/-- `Beeper::is_beeping`: a read-only projection of the latch. -/
def Beeper.is_beeping (bp : Beeper) : Bool := bp.beep

/-- States of the CPU reachable from power-on (`Cpu::new`) or an external
`Cpu::reset`, under arbitrary step inputs: the bus is universally quantified
at every step, which covers both the bus the CPU itself produced and any
host mutation of keys/timers/memory between steps. -/
inductive Reachable : Cpu → Prop where
  | power_on : Reachable Cpu.new
  | reset : ∀ c, Reachable (Cpu.reset c)
  | step : ∀ c b rnd c' b', Reachable c → c.emulate b rnd = some (c', b') →
      Reachable c'

/-! ## Theorems -/

/-- ROM image exercising the unmasked pc writes: `6001` (v0 = 1) then
`BFFF` (pc = 0xFFF + v0). -/
def romC1 : List Nat := [0x60, 0x01, 0xBF, 0xFF]

/-- Claim C1 (code bug). From power-on with ROM bytes `60 01 BF FF`, the
second step executes BNNN with `nnn = 0xFFF` and `v[0] = 1`: the source uses
`nnn.wrapping_add(v[0])` (mod 2^16) with no 12-bit mask, so pc becomes
0x1000, and the third step's opcode fetch indexes `memory[0x1000]`, out of
bounds for the 4096-byte array — a panic (`none`), contradicting the claim
that pc always wraps modulo 0x1000 and that the fetch cannot panic. -/
theorem claim_C1_bug :
    (((Cpu.new.emulate (Bus.new romC1) 0).bind fun s =>
        s.1.emulate s.2 0).map fun s => s.1.pc) = some 0x1000 ∧
    (((Cpu.new.emulate (Bus.new romC1) 0).bind fun s =>
        s.1.emulate s.2 0).bind fun s => s.1.emulate s.2 0) = none := by
  exact ⟨rfl, rfl⟩

/-- Claim C2, counterexample: `read_byte`/`write_byte` at address 0x1000 are
an out-of-bounds array access (panic, modeled `none`) — there is no
truncation to the address-space size. -/
theorem claim_C2_counterexample :
    (Bus.new []).read_byte 0x1000 = none ∧
    (Bus.new []).write_byte 0x1000 7 = none := ⟨rfl, rfl⟩

/-- Claim C2, amended: `read_byte(addr)` and `write_byte(addr, value)`
succeed (no failure path) exactly for addresses below the 4096-byte address
space; an out-of-range address is an index-bounds panic, not truncated, so
callers must mask addresses to 12 bits themselves. -/
theorem claim_C2_amended (b : Bus) (addr val : Nat) (h : addr < 0x1000) :
    (∃ byte, b.read_byte addr = some byte) ∧
    (∃ b', b.write_byte addr val = some b') := by
  constructor
  · exact ⟨b.memory addr, by simp [Bus.read_byte, h]⟩
  · exact ⟨{ b with memory := fun a => if a = addr then val else b.memory a },
      by simp [Bus.write_byte, h]⟩

/-- Witness for `claim_C2_amended` at address 0. -/
theorem claim_C2_witness :
    (0 : Nat) < 0x1000 ∧
    ((∃ byte, (Bus.new []).read_byte 0 = some byte) ∧
     (∃ b', (Bus.new []).write_byte 0 7 = some b')) :=
  ⟨by decide, claim_C2_amended (Bus.new []) 0 7 (by decide)⟩

/-- Claim C3, counterexample: with the sound counter at 1, one `update`
decrements the counter to 0 yet latches `beep = true`, so `is_beeping`
returns `true` while the counter is currently zero — the claimed
"true iff the counter is currently nonzero" fails. -/
theorem claim_C3_counterexample :
    (Beeper.new.update { Bus.new [] with beep := 1 }).1.is_beeping = true ∧
    ((Beeper.new.update { Bus.new [] with beep := 1 }).2).beep = 0 :=
  ⟨rfl, rfl⟩

/-- Claim C3, amended: `is_beeping` is a pure projection of the latch that
`update` sets; after an `update` it is `true` iff the sound counter was
nonzero at the start of that `update` (sampled before the decrement), and
`update` decrements a nonzero counter by one. The query itself takes the
unit by shared reference and mutates nothing (it is a field read in the
embedding). -/
theorem claim_C3_amended (bp : Beeper) (b : Bus) :
    ((bp.update b).1.is_beeping = true ↔ 0 < b.beep) ∧
    (bp.update b).2.beep = (if 0 < b.beep then b.beep - 1 else b.beep) := by
  constructor
  · simp [Beeper.update, Beeper.is_beeping, Bus.read_sound]
  · simp only [Beeper.update, Bus.read_sound, Bus.write_sound]
    split <;> simp_all

/-- State for the C4 counterexample: `v[0] = 2`. -/
def cpuC4 : Cpu := { Cpu.new with v := vset Cpu.new.v 0 2 }

/-- State for the C4 counterexample on 8XYE: `v[0] = 0x80`. -/
def cpuC4e : Cpu := { Cpu.new with v := vset Cpu.new.v 0 0x80 }

/-- Claim C4, counterexample: with `x = y = 0` and `v[0] = 2`, executing
8XY6 leaves `v[F] = 1` although the low bit of the pre-instruction `v[0]`
is 0 (the flag line reads `v[y]` after `v[x]` was overwritten), and `v[y]`
is modified (2 becomes 1). Dually for 8XYE with `v[0] = 0x80`: `v[F] = 0`
although the pre-instruction high bit is 1. -/
theorem claim_C4_counterexample :
    ((cpuC4.opcode_8xy6 0 0).v 0xF = 1 ∧ cpuC4.v 0 % 2 = 0 ∧
      (cpuC4.opcode_8xy6 0 0).v 0 = 1 ∧ cpuC4.v 0 = 2) ∧
    ((cpuC4e.opcode_8xye 0 0).v 0xF = 0 ∧ cpuC4e.v 0 / 128 % 2 = 1) := by
  exact ⟨⟨rfl, rfl, rfl, rfl⟩, ⟨rfl, rfl⟩⟩

/-- Claim C4, amended: 8XY6 performs `v[x] = v[y] >> 1` and then
`v[F] = v[y] & 1` with `v[y]` re-read after the first write. Hence for
`x ≠ y` the claim's description holds (result into `v[x]`, flag from the
pre-instruction `v[y]`, the flag write winning when `x = 0xF`), but when
`x = y` the flag receives the low bit of the already-shifted value and
`v[y]` is modified. Dually for 8XYE with the left shift and the high bit.
The conclusion characterizes every register of the post-state. -/
theorem claim_C4_amended (c : Cpu) (x y : Nat) :
    (∀ r, (c.opcode_8xy6 x y).v r =
      if r = 0xF then (if y = x then c.v y / 2 else c.v y) % 2
      else if r = x then c.v y / 2 else c.v r) ∧
    (∀ r, (c.opcode_8xye x y).v r =
      if r = 0xF then (if y = x then c.v y * 2 % 256 else c.v y) / 128 % 2
      else if r = x then c.v y * 2 % 256 else c.v r) := by
  constructor <;> intro r <;> simp [Cpu.opcode_8xy6, Cpu.opcode_8xye, vset]

/-- Claim C6 (confirmed): for 8XY4/8XY5/8XY7 with destination `x = 0xF`,
the final `v[0xF]` is exactly the carry/borrow flag computed from the
pre-instruction operands (the flag write happens after the result write and
wins), not the wrapped arithmetic result. `y` is arbitrary, covering
`y = 0xF` as well. -/
theorem claim_C6 (c : Cpu) (y : Nat) :
    ((c.opcode_8xy4 0xF y).v 0xF = if 256 ≤ c.v 0xF + c.v y then 1 else 0) ∧
    ((c.opcode_8xy5 0xF y).v 0xF = if c.v 0xF < c.v y then 0 else 1) ∧
    ((c.opcode_8xy7 0xF y).v 0xF = if c.v y < c.v 0xF then 0 else 1) := by
  refine ⟨?_, ?_, ?_⟩ <;>
    simp [Cpu.opcode_8xy4, Cpu.opcode_8xy5, Cpu.opcode_8xy7, vset]

/-- Claim C10 (confirmed): `opcode_00ee` on an empty call stack is a total
no-op — `Vec::pop` returns `None`, a warning is logged, and the entire CPU
state (pc included) is returned unchanged; the handler does not touch the
bus at all (it takes no bus argument). -/
theorem claim_C10 (c : Cpu) (h : c.stack = []) : c.opcode_00ee = c := by
  unfold Cpu.opcode_00ee
  rw [h]

/-- Witness for `claim_C10` at the power-on state, whose stack is empty. -/
theorem claim_C10_witness :
    Cpu.new.stack = [] ∧ Cpu.new.opcode_00ee = Cpu.new :=
  ⟨rfl, claim_C10 Cpu.new rfl⟩

/-- `List.find?` over `range n` returns the least index satisfying the
predicate — the ascending scan-with-break of the key-wait loop. -/
lemma find?_range_eq_some (p : Nat → Bool) (n k : Nat) (hk : k < n)
    (hp : p k = true) (hmin : ∀ j, j < k → p j = false) :
    (List.range n).find? p = some k := by
  induction n with
  | zero => omega
  | succ n ih =>
    rw [List.range_succ, List.find?_append]
    by_cases h : k < n
    · rw [ih h]; rfl
    · have hkn : k = n := by omega
      subst hkn
      have hnone : (List.range k).find? p = none := by
        rw [List.find?_eq_none]
        intro j hj
        simp only [List.mem_range] at hj
        simp [hmin j hj]
      rw [hnone, List.find?_cons_of_pos _ hp]
      rfl

/-- Claim C7 (confirmed). (1) While the key-wait latch is armed and no
keypad key is pressed, a step changes nothing at all (pc included).
(2) On the first step with some key pressed, the lowest pressed index
(ascending 0..15 scan) is stored into the target register and the latch is
cleared, with pc and everything else unchanged on that call. (3) With the
latch clear, a step is exactly the normal fetch-decode-execute, so
advancement resumes on the call after the key is accepted. -/
theorem claim_C7 :
    (∀ (c : Cpu) (b : Bus) (rnd x : Nat), c.key_await = some x →
      (∀ k, k < KEYPAD_SIZE → b.keys k = false) →
      c.emulate b rnd = some (c, b)) ∧
    (∀ (c : Cpu) (b : Bus) (rnd x k0 : Nat), c.key_await = some x →
      k0 < KEYPAD_SIZE → b.keys k0 = true → (∀ j, j < k0 → b.keys j = false) →
      c.emulate b rnd = some ({ c with v := vset c.v x k0, key_await := none }, b)) ∧
    (∀ (c : Cpu) (b : Bus) (rnd : Nat), c.key_await = none →
      c.emulate b rnd =
        match c.pc_read_word b with
        | some (opcode, c1) => c1.execute b opcode rnd
        | none => none) := by
  refine ⟨?_, ?_, ?_⟩
  · intro c b rnd x hx hkeys
    have hnone : (List.range KEYPAD_SIZE).find? (fun key => b.keys key) = none := by
      rw [List.find?_eq_none]
      intro k hk
      simp only [List.mem_range] at hk
      simp [hkeys k hk]
    simp [Cpu.emulate, hx, hnone]
  · intro c b rnd x k0 hx hk0 hp hmin
    have hfind : (List.range KEYPAD_SIZE).find? (fun key => b.keys key) = some k0 :=
      find?_range_eq_some _ KEYPAD_SIZE k0 hk0 hp hmin
    simp [Cpu.emulate, hx, hfind]
  · intro c b rnd hx
    simp only [Cpu.emulate, hx]

/-- Waiting CPU for the C7 witness: latch armed for register 3. -/
def cpuC7 : Cpu := { Cpu.new with key_await := some 3 }

/-- Bus for the C7 witness: only key 5 pressed. -/
def busC7 : Bus :=
  { memory := fun _ => 0, vram := fun _ _ => false,
    keys := fun k => decide (k = 5), delay := 0, beep := 0 }

/-- Witness for `claim_C7`: with no key pressed the step is the identity;
with key 5 pressed it stores 5 into register 3 and clears the latch. -/
theorem claim_C7_witness :
    (cpuC7.key_await = some 3 ∧
      cpuC7.emulate (Bus.new []) 0 = some (cpuC7, Bus.new [])) ∧
    (cpuC7.key_await = some 3 ∧ (5 : Nat) < KEYPAD_SIZE ∧ busC7.keys 5 = true ∧
      cpuC7.emulate busC7 0 =
        some ({ cpuC7 with v := vset cpuC7.v 3 5, key_await := none }, busC7)) :=
  ⟨⟨rfl, claim_C7.1 cpuC7 (Bus.new []) 0 3 rfl (fun _ _ => rfl)⟩,
   ⟨rfl, by decide, rfl,
    claim_C7.2.1 cpuC7 busC7 0 3 5 rfl (by decide) rfl
      (fun j hj => by simp only [busC7]; simp; omega)⟩⟩

/-- The FX55 write loop: with all `x + 1` target addresses in range it
succeeds and produces exactly the memory overwritten with `v[0..=x]` on the
interval `[i, i+x]`. -/
lemma fx55_fold_char (c : Cpu) (b : Bus) :
    ∀ x, c.i + x < 0x1000 →
    ∃ m1, (List.range (x + 1)).foldlM
        (fun bb addr => bb.write_byte ((c.i + addr) % 65536) (c.v addr)) b =
        some { b with memory := m1 } ∧
      ∀ a, m1 a = if c.i ≤ a ∧ a ≤ c.i + x then c.v (a - c.i) else b.memory a := by
  intro x
  induction x with
  | zero =>
    intro hx
    have e1 : (c.i + 0) % 65536 = c.i := Nat.mod_eq_of_lt (by omega)
    refine ⟨fun a => if a = c.i then c.v 0 else b.memory a, ?_, ?_⟩
    · have hr1 : List.range (0 + 1) = [0] := by simp [List.range_succ]
      rw [hr1, List.foldlM_cons]
      simp only [Bus.write_byte, e1]
      rw [if_pos (by omega : c.i < 0x1000)]
      rfl
    · intro a
      show (if a = c.i then c.v 0 else b.memory a) =
        if c.i ≤ a ∧ a ≤ c.i + 0 then c.v (a - c.i) else b.memory a
      split_ifs with h1 h2
      · have h3 : a - c.i = 0 := by omega
        rw [h3]
      · omega
      · omega
      · rfl
  | succ x ih =>
    intro hx
    obtain ⟨m1, hfold, hmem⟩ := ih (by omega)
    have e1 : (c.i + (x + 1)) % 65536 = c.i + (x + 1) := Nat.mod_eq_of_lt (by omega)
    refine ⟨fun a => if a = c.i + (x + 1) then c.v (x + 1) else m1 a, ?_, ?_⟩
    · rw [List.range_succ, List.foldlM_append, hfold]
      show ((({ b with memory := m1 } : Bus).write_byte ((c.i + (x + 1)) % 65536)
          (c.v (x + 1))).bind fun b' => List.foldlM _ b' []) = _
      simp only [Bus.write_byte, e1]
      rw [if_pos (by omega : c.i + (x + 1) < 0x1000)]
      rfl
    · intro a
      show (if a = c.i + (x + 1) then c.v (x + 1) else m1 a) =
        if c.i ≤ a ∧ a ≤ c.i + (x + 1) then c.v (a - c.i) else b.memory a
      by_cases ha : a = c.i + (x + 1)
      · rw [if_pos ha, if_pos (by omega)]
        have h3 : a - c.i = x + 1 := by omega
        rw [h3]
      · rw [if_neg ha, hmem a]
        by_cases h2 : c.i ≤ a ∧ a ≤ c.i + x
        · rw [if_pos h2, if_pos (by omega)]
        · rw [if_neg h2, if_neg (by omega)]

/-- The FX65 read loop: with all `x + 1` source addresses in range it
succeeds and produces the register file whose entries `0..=x` are the bytes
at `base..base+x`, the rest untouched. -/
lemma fx65_fold_char (ci : Nat) (b1 : Bus) (v0 : Nat → Nat) :
    ∀ x, ci + x < 0x1000 →
    ∃ v1, (List.range (x + 1)).foldlM
        (fun vv addr => (b1.read_byte ((ci + addr) % 65536)).map fun byte =>
          vset vv addr byte) v0 = some v1 ∧
      ∀ r, v1 r = if r ≤ x then b1.memory (ci + r) else v0 r := by
  intro x
  induction x with
  | zero =>
    intro hx
    have e1 : (ci + 0) % 65536 = ci := Nat.mod_eq_of_lt (by omega)
    refine ⟨vset v0 0 (b1.memory ci), ?_, ?_⟩
    · have hr1 : List.range (0 + 1) = [0] := by simp [List.range_succ]
      rw [hr1, List.foldlM_cons]
      simp only [Bus.read_byte, e1]
      rw [if_pos (by omega : ci < 0x1000)]
      rfl
    · intro r
      show (if r = 0 then b1.memory ci else v0 r) =
        if r ≤ 0 then b1.memory (ci + r) else v0 r
      by_cases hr : r = 0
      · rw [if_pos hr, if_pos (by omega), hr, Nat.add_zero]
      · rw [if_neg hr, if_neg (by omega)]
  | succ x ih =>
    intro hx
    obtain ⟨v1, hfold, hv⟩ := ih (by omega)
    have e1 : (ci + (x + 1)) % 65536 = ci + (x + 1) := Nat.mod_eq_of_lt (by omega)
    refine ⟨vset v1 (x + 1) (b1.memory (ci + (x + 1))), ?_, ?_⟩
    · rw [List.range_succ, List.foldlM_append, hfold]
      show (((b1.read_byte ((ci + (x + 1)) % 65536)).map fun byte =>
          vset v1 (x + 1) byte).bind fun v' => List.foldlM _ v' []) = _
      simp only [Bus.read_byte, e1]
      rw [if_pos (by omega : ci + (x + 1) < 0x1000)]
      rfl
    · intro r
      show (if r = x + 1 then b1.memory (ci + (x + 1)) else v1 r) =
        if r ≤ x + 1 then b1.memory (ci + r) else v0 r
      by_cases hr : r = x + 1
      · rw [if_pos hr, if_pos (by omega), hr]
      · rw [if_neg hr, hv r]
        by_cases h2 : r ≤ x
        · rw [if_pos h2, if_pos (by omega)]
        · rw [if_neg h2, if_neg (by omega)]

/-- Claim C8, counterexample: with `i = 0xFFF` and `x = 1` the claimed
"every index value i" fails — FX55's second write targets address 0x1000,
an out-of-bounds memory index (panic, `none`), so no round trip happens. -/
theorem claim_C8_counterexample :
    Cpu.opcode_fx55 { Cpu.new with i := 0xFFF } (Bus.new []) 1 = none := rfl

/-- Claim C8, amended: for every register index `x` and every base `i` with
`i + x < 0x1000` (all `x + 1` memory accesses in range, the condition the
counterexample shows is necessary), FX55 followed by FX65 from the same base
address restores every register value (in particular `v[0..=x]`), and each
instruction leaves `i = (base + x + 1) & 0xFFF`, i.e. advanced by `x + 1`
masked to 12 bits relative to its own starting value. -/
theorem claim_C8_amended (c : Cpu) (b : Bus) (x : Nat) (hx : x < 16)
    (hi : c.i + x < 0x1000) :
    ∃ c1 b1 c2 b2,
      c.opcode_fx55 b x = some (c1, b1) ∧
      Cpu.opcode_fx65 { c1 with i := c.i } b1 x = some (c2, b2) ∧
      (∀ r, c2.v r = c.v r) ∧
      c1.i = (c.i + x + 1) % 0x1000 ∧
      c2.i = (c.i + x + 1) % 0x1000 := by
  obtain ⟨m1, hfold, hmem⟩ := fx55_fold_char c b x hi
  have h55 : c.opcode_fx55 b x =
      some ({ c with i := (c.i + x + 1) % 65536 % 0x1000 }, { b with memory := m1 }) := by
    unfold Cpu.opcode_fx55
    rw [hfold]
  obtain ⟨v1, hfold2, hv⟩ := fx65_fold_char c.i { b with memory := m1 } c.v x hi
  have h65 : c.opcode_fx65 { b with memory := m1 } x =
      some ({ c with v := v1, i := (c.i + x + 1) % 65536 % 0x1000 },
            { b with memory := m1 }) := by
    unfold Cpu.opcode_fx65
    rw [hfold2]
  have hmask : (c.i + x + 1) % 65536 % 0x1000 = (c.i + x + 1) % 0x1000 :=
    Nat.mod_mod_of_dvd _ (by norm_num)
  refine ⟨_, _, _, _, h55, h65, ?_, hmask, hmask⟩
  intro r
  show v1 r = c.v r
  rw [hv r]
  by_cases hr : r ≤ x
  · rw [if_pos hr]
    show m1 (c.i + r) = c.v r
    rw [hmem, if_pos (by omega)]
    congr 1
    omega
  · rw [if_neg hr]

/-- Everything the sprite-draw loops leave untouched: all CPU fields except
the flag register `v[0xF]`, and all bus fields except the screen. -/
def st_pres (st st' : Cpu × Bus) : Prop :=
  st'.1.pc = st.1.pc ∧ st'.1.i = st.1.i ∧ st'.1.stack = st.1.stack ∧
  st'.1.key_await = st.1.key_await ∧ st'.2.memory = st.2.memory ∧
  st'.2.keys = st.2.keys ∧ st'.2.delay = st.2.delay ∧ st'.2.beep = st.2.beep ∧
  (∀ r, r ≠ 0xF → st'.1.v r = st.1.v r)

lemma st_pres_refl (st : Cpu × Bus) : st_pres st st :=
  ⟨rfl, rfl, rfl, rfl, rfl, rfl, rfl, rfl, fun _ _ => rfl⟩

lemma st_pres_trans {s t u : Cpu × Bus} (h1 : st_pres s t) (h2 : st_pres t u) :
    st_pres s u := by
  obtain ⟨a1, a2, a3, a4, a5, a6, a7, a8, a9⟩ := h1
  obtain ⟨b1, b2, b3, b4, b5, b6, b7, b8, b9⟩ := h2
  exact ⟨b1.trans a1, b2.trans a2, b3.trans a3, b4.trans a4, b5.trans a5,
    b6.trans a6, b7.trans a7, b8.trans a8,
    fun r hr => (b9 r hr).trans (a9 r hr)⟩

lemma draw_pixel_pres (x yy line : Nat) (st : Cpu × Bus) (w : Nat) :
    st_pres st (draw_pixel x yy line st w) := by
  unfold draw_pixel
  dsimp only
  split
  · split
    · exact ⟨rfl, rfl, rfl, rfl, rfl, rfl, rfl, rfl,
        fun r hr => by simp [vset, hr]⟩
    · exact ⟨rfl, rfl, rfl, rfl, rfl, rfl, rfl, rfl, fun r hr => rfl⟩
  · exact st_pres_refl st

lemma draw_row_pres (x yy line : Nat) :
    ∀ (l : List Nat) (st : Cpu × Bus),
      st_pres st (l.foldl (draw_pixel x yy line) st) := by
  intro l
  induction l with
  | nil => intro st; exact st_pres_refl st
  | cons w t ih =>
    intro st
    rw [List.foldl_cons]
    exact st_pres_trans (draw_pixel_pres x yy line st w)
      (ih (draw_pixel x yy line st w))

lemma dxyn_row_pres (x y : Nat) (st st' : Cpu × Bus) (h : Nat)
    (hrow : dxyn_row x y st h = some st') : st_pres st st' := by
  unfold dxyn_row at hrow
  split at hrow
  · cases hrow
    exact draw_row_pres x _ _ (List.range 8) st
  · cases hrow

lemma dxyn_fold_pres (x y : Nat) :
    ∀ (l : List Nat) (st st' : Cpu × Bus),
      l.foldlM (dxyn_row x y) st = some st' → st_pres st st' := by
  intro l
  induction l with
  | nil =>
    intro st st' h
    rw [List.foldlM_nil] at h
    cases h
    exact st_pres_refl st
  | cons hd t ih =>
    intro st st' h
    rw [List.foldlM_cons] at h
    cases hrow : dxyn_row x y st hd with
    | none => rw [hrow] at h; cases h
    | some st1 =>
      rw [hrow] at h
      exact st_pres_trans (dxyn_row_pres x y st st1 hd hrow) (ih st1 st' h)

/-- Every field of the CPU and bus other than `v[0xF]` and the screen is
preserved by a successful DXYN, and `v[0xF]` aside the registers keep their
values. -/
lemma opcode_dxyn_pres (c : Cpu) (b : Bus) (x y n : Nat) (c' : Cpu) (b' : Bus)
    (h : c.opcode_dxyn b x y n = some (c', b')) :
    c'.pc = c.pc ∧ c'.i = c.i ∧ c'.stack = c.stack ∧ c'.key_await = c.key_await ∧
    b'.memory = b.memory ∧ b'.keys = b.keys ∧ b'.delay = b.delay ∧
    b'.beep = b.beep ∧ (∀ r, r ≠ 0xF → c'.v r = c.v r) := by
  unfold Cpu.opcode_dxyn at h
  obtain ⟨a1, a2, a3, a4, a5, a6, a7, a8, a9⟩ :=
    dxyn_fold_pres x y (List.range n) ({ c with v := vset c.v 0xF 0x0 }, b) (c', b') h
  refine ⟨a1, a2, a3, a4, a5, a6, a7, a8, fun r hr => ?_⟩
  rw [a9 r hr]
  show vset c.v 0xF 0x0 r = c.v r
  rw [vset, if_neg hr]

lemma opcode_ex9e_i (c : Cpu) (b : Bus) (x : Nat) (c1 : Cpu)
    (h : c.opcode_ex9e b x = some c1) : c1.i = c.i := by
  unfold Cpu.opcode_ex9e at h
  split at h
  · injection h with h
    subst h
    split <;> rfl
  · cases h

lemma opcode_exa1_i (c : Cpu) (b : Bus) (x : Nat) (c1 : Cpu)
    (h : c.opcode_exa1 b x = some c1) : c1.i = c.i := by
  unfold Cpu.opcode_exa1 at h
  split at h
  · injection h with h
    subst h
    split <;> rfl
  · cases h

lemma opcode_fx33_cpu (c : Cpu) (b : Bus) (x : Nat) (c' : Cpu) (b' : Bus)
    (h : c.opcode_fx33 b x = some (c', b')) : c' = c := by
  unfold Cpu.opcode_fx33 at h
  dsimp only at h
  split at h
  · split at h
    · split at h
      · injection h with h
        injection h with ha hb
        exact ha.symm
      · cases h
    · cases h
  · cases h

lemma opcode_fx55_i (c : Cpu) (b : Bus) (x : Nat) (c' : Cpu) (b' : Bus)
    (h : c.opcode_fx55 b x = some (c', b')) : c'.i < 0x1000 := by
  unfold Cpu.opcode_fx55 at h
  split at h
  · injection h with h
    injection h with ha hb
    rw [← ha]
    show (c.i + x + 1) % 65536 % 0x1000 < 0x1000
    omega
  · cases h

lemma opcode_fx65_i (c : Cpu) (b : Bus) (x : Nat) (c' : Cpu) (b' : Bus)
    (h : c.opcode_fx65 b x = some (c', b')) : c'.i < 0x1000 := by
  unfold Cpu.opcode_fx65 at h
  split at h
  · injection h with h
    injection h with ha hb
    rw [← ha]
    show (c.i + x + 1) % 65536 % 0x1000 < 0x1000
    omega
  · cases h

set_option maxHeartbeats 4000000

/-- Every instruction preserves `i < 0x1000`: the only writers are ANNN
(a 12-bit immediate) and FX1E/FX29/FX55/FX65 (masked `& 0x0FFF` after the
arithmetic). -/
lemma execute_i_lt (c : Cpu) (b : Bus) (op rnd : Nat) (c' : Cpu) (b' : Bus)
    (hc : c.i < 0x1000) (h : c.execute b op rnd = some (c', b')) :
    c'.i < 0x1000 := by
  have hd : op / 4096 % 16 = 0 ∨ op / 4096 % 16 = 1 ∨ op / 4096 % 16 = 2 ∨
      op / 4096 % 16 = 3 ∨ op / 4096 % 16 = 4 ∨ op / 4096 % 16 = 5 ∨
      op / 4096 % 16 = 6 ∨ op / 4096 % 16 = 7 ∨ op / 4096 % 16 = 8 ∨
      op / 4096 % 16 = 9 ∨ op / 4096 % 16 = 10 ∨ op / 4096 % 16 = 11 ∨
      op / 4096 % 16 = 12 ∨ op / 4096 % 16 = 13 ∨ op / 4096 % 16 = 14 ∨
      op / 4096 % 16 = 15 := by omega
  rcases hd with hcase | hcase | hcase | hcase | hcase | hcase | hcase | hcase |
    hcase | hcase | hcase | hcase | hcase | hcase | hcase | hcase
  all_goals simp [Cpu.execute, hcase] at h
  iterate 10 (all_goals try split at h)
  all_goals try (rw [(opcode_dxyn_pres _ _ _ _ _ _ _ h).2.1]; exact hc)
  all_goals try (rw [opcode_fx33_cpu _ _ _ _ _ h]; exact hc)
  all_goals try (exact opcode_fx55_i _ _ _ _ _ h)
  all_goals try (exact opcode_fx65_i _ _ _ _ _ h)
  all_goals try
    (cases hop : c.opcode_ex9e b (op / 256 % 16) with
     | none => rw [hop] at h; simp at h
     | some c1 =>
       rw [hop] at h
       simp at h
       first
         | (rw [← h.1, opcode_ex9e_i _ _ _ _ hop]; exact hc)
         | (rw [h.1, opcode_ex9e_i _ _ _ _ hop]; exact hc))
  all_goals try
    (cases hop : c.opcode_exa1 b (op / 256 % 16) with
     | none => rw [hop] at h; simp at h
     | some c1 =>
       rw [hop] at h
       simp at h
       first
         | (rw [← h.1, opcode_exa1_i _ _ _ _ hop]; exact hc)
         | (rw [h.1, opcode_exa1_i _ _ _ _ hop]; exact hc))
  all_goals try (simp only [Cpu.opcode_00e0, Cpu.opcode_fx15, Cpu.opcode_fx18] at h)
  all_goals try (obtain ⟨ha, hb⟩ := h; rw [← ha])
  all_goals try (injection h with h; injection h with ha hb; rw [← ha])
  all_goals try exact hc
  all_goals simp only [Cpu.opcode_0nnn, Cpu.opcode_00ee, Cpu.opcode_1nnn,
    Cpu.opcode_2nnn, Cpu.opcode_3xnn, Cpu.opcode_4xnn, Cpu.opcode_5xy0,
    Cpu.opcode_6xnn, Cpu.opcode_7xnn, Cpu.opcode_9xy0, Cpu.opcode_annn,
    Cpu.opcode_bnnn, Cpu.opcode_cxnn, Cpu.opcode_fx07, Cpu.opcode_fx0a,
    Cpu.opcode_fx1e, Cpu.opcode_fx29]
  all_goals try exact hc
  all_goals try omega
  all_goals try (split <;> first | exact hc | omega)
  all_goals (split <;> (try split) <;> first | exact hc | omega)

set_option maxHeartbeats 200000

lemma pc_read_byte_i (c : Cpu) (b : Bus) (byte : Nat) (c1 : Cpu)
    (h : c.pc_read_byte b = some (byte, c1)) : c1.i = c.i := by
  unfold Cpu.pc_read_byte at h
  split at h
  · injection h with h
    injection h with ha hb
    rw [← hb]
  · cases h

lemma pc_read_word_i (c : Cpu) (b : Bus) (op : Nat) (c1 : Cpu)
    (h : c.pc_read_word b = some (op, c1)) : c1.i = c.i := by
  unfold Cpu.pc_read_word at h
  split at h
  · rename_i low cA heqA
    split at h
    · rename_i high cB heqB
      injection h with h
      injection h with ha hb
      rw [← hb, pc_read_byte_i _ _ _ _ heqB, pc_read_byte_i _ _ _ _ heqA]
    · cases h
  · cases h

/-- Claim C9 (confirmed): every CPU state reachable from power-on or reset
has `i < 0x1000` after every step — ANNN assigns a 12-bit value and
FX1E/FX29/FX55/FX65 mask with `& 0x0FFF`; the u16 sums involved
(`i + v[x]`, `i + x + 1`, `v[x] * 5`, operands bounded by 0xFFF and 0xFF)
stay below 2^16, so none of the `i` arithmetic can overflow-panic. -/
theorem claim_C9 (c : Cpu) (h : Reachable c) : c.i < 0x1000 := by
  induction h with
  | power_on => decide
  | reset c0 => show (0 : Nat) < 0x1000; decide
  | step c0 b rnd c' b' hr hstep ih =>
    unfold Cpu.emulate at hstep
    split at hstep
    · split at hstep
      all_goals
        (injection hstep with h2; injection h2 with ha hb; rw [← ha]; exact ih)
    · split at hstep
      · rename_i op c1 heq
        have h1 : c1.i = c0.i := pc_read_word_i _ _ _ _ heq
        exact execute_i_lt c1 b _ rnd c' b' (h1 ▸ ih) hstep
      · cases hstep

/-- Witness for `claim_C9` at the power-on state. -/
theorem claim_C9_witness : Reachable Cpu.new ∧ Cpu.new.i < 0x1000 :=
  ⟨Reachable.power_on, claim_C9 Cpu.new Reachable.power_on⟩

lemma col_inj (vx w1 w2 : Nat) (h1 : w1 < 8) (h2 : w2 < 8) (hne : w1 ≠ w2) :
    (vx + w1) % 64 ≠ (vx + w2) % 64 := by omega

lemma draw_pixel_eq_of_not (x yy line : Nat) (st : Cpu × Bus) (w : Nat)
    (hT : ¬ 0 < line * 2 ^ w % 256 &&& 0x80) : draw_pixel x yy line st w = st := by
  unfold draw_pixel
  dsimp only
  rw [if_neg hT]

/-- A toggled pixel flips exactly the screen cell
`((v[x] + w) % 64, yy % 32)`. -/
lemma draw_pixel_vram (x yy line : Nat) (c : Cpu) (b : Bus) (w : Nat)
    (hT : 0 < line * 2 ^ w % 256 &&& 0x80) :
    ∀ p q, (draw_pixel x yy line (c, b) w).2.vram p q =
      if p = (c.v x + w) % 64 ∧ q = yy % 32 then !(b.vram p q) else b.vram p q := by
  intro p q
  unfold draw_pixel
  dsimp only [Bus.read_screen, Bus.write_screen, DISPLAY_WIDTH, DISPLAY_HEIGHT]
  rw [if_pos hT]
  have e64 : (c.v x + w) % 256 % 64 = (c.v x + w) % 64 :=
    Nat.mod_mod_of_dvd _ (by norm_num)
  show (if p = (c.v x + w) % 256 % 64 ∧ q = yy % 32
      then !(b.vram ((c.v x + w) % 256 % 64) (yy % 32)) else b.vram p q) = _
  rw [e64]
  by_cases hp : p = (c.v x + w) % 64 ∧ q = yy % 32
  · rw [if_pos hp, if_pos hp, hp.1, hp.2]
  · rw [if_neg hp, if_neg hp]

/-- A toggled pixel sets the flag iff the target cell was set; other
registers keep their values (`x ≠ 0xF` keeps the coordinate register
stable). -/
lemma draw_pixel_v (x yy line : Nat) (c : Cpu) (b : Bus) (w : Nat)
    (hT : 0 < line * 2 ^ w % 256 &&& 0x80) :
    ∀ r, (draw_pixel x yy line (c, b) w).1.v r =
      if r = 0xF ∧ b.vram ((c.v x + w) % 64) (yy % 32) = true then 1
      else c.v r := by
  intro r
  unfold draw_pixel
  dsimp only [Bus.read_screen, DISPLAY_WIDTH, DISPLAY_HEIGHT]
  rw [if_pos hT]
  have e64 : (c.v x + w) % 256 % 64 = (c.v x + w) % 64 :=
    Nat.mod_mod_of_dvd _ (by norm_num)
  show ((if b.vram ((c.v x + w) % 256 % 64) (yy % 32) = true
      then { c with v := vset c.v 0xF 0x1 } else c).v r) = _
  rw [e64]
  by_cases hpix : b.vram ((c.v x + w) % 64) (yy % 32) = true
  · rw [if_pos hpix]
    show vset c.v 0xF 0x1 r = _
    by_cases hr : r = 0xF
    · rw [vset, if_pos hr, if_pos ⟨hr, hpix⟩]
    · rw [vset, if_neg hr, if_neg (fun hcon => hr hcon.1)]
  · rw [if_neg hpix, if_neg (fun hcon => hpix hcon.2)]

/-- Characterization of one sprite row: with distinct in-range columns the
fold XORs exactly the targeted cells into the screen and ORs "some targeted
cell was already set" into the flag. -/
lemma draw_fold_char (x yy line : Nat) (hx15 : x ≠ 0xF) :
    ∀ (ws : List Nat) (c : Cpu) (b : Bus), (∀ w ∈ ws, w < 8) → ws.Nodup →
    (∀ p q, (ws.foldl (draw_pixel x yy line) (c, b)).2.vram p q =
        if q = yy % 32 ∧ ∃ w ∈ ws, (0 < line * 2 ^ w % 256 &&& 0x80) ∧
            p = (c.v x + w) % 64
        then !(b.vram p q) else b.vram p q) ∧
    (∀ r, (ws.foldl (draw_pixel x yy line) (c, b)).1.v r =
        if r = 0xF ∧ ∃ w ∈ ws, (0 < line * 2 ^ w % 256 &&& 0x80) ∧
            b.vram ((c.v x + w) % 64) (yy % 32) = true
        then 1 else c.v r) := by
  intro ws
  induction ws with
  | nil =>
    intro c b _ _
    exact ⟨fun p q => by simp, fun r => by simp⟩
  | cons w0 ws ih =>
    intro c b hmem hnodup
    rw [List.nodup_cons] at hnodup
    have hmem' : ∀ w ∈ ws, w < 8 := fun w hw => hmem w (List.mem_cons_of_mem _ hw)
    rw [List.foldl_cons]
    by_cases hT : 0 < line * 2 ^ w0 % 256 &&& 0x80
    · have hw0 : w0 < 8 := hmem w0 (List.mem_cons_self w0 ws)
      obtain ⟨⟨c1, b1⟩, hst1⟩ :
          ∃ st1, draw_pixel x yy line (c, b) w0 = st1 := ⟨_, rfl⟩
      have hb1 : ∀ p q, b1.vram p q =
          if p = (c.v x + w0) % 64 ∧ q = yy % 32 then !(b.vram p q)
          else b.vram p q := by
        intro p q
        rw [show b1 = (draw_pixel x yy line (c, b) w0).2 by rw [hst1]]
        exact draw_pixel_vram x yy line c b w0 hT p q
      have hc1 : ∀ r, c1.v r =
          if r = 0xF ∧ b.vram ((c.v x + w0) % 64) (yy % 32) = true then 1
          else c.v r := by
        intro r
        rw [show c1 = (draw_pixel x yy line (c, b) w0).1 by rw [hst1]]
        exact draw_pixel_v x yy line c b w0 hT r
      have hc1x : c1.v x = c.v x := by
        rw [hc1 x, if_neg (fun hcon => hx15 hcon.1)]
      obtain ⟨ihv, ihr⟩ := ih c1 b1 hmem' hnodup.2
      rw [hst1]
      constructor
      · intro p q
        rw [ihv p q]
        simp only [hc1x]
        by_cases hq : q = yy % 32
        · by_cases hpw0 : p = (c.v x + w0) % 64
          · have hb1v : b1.vram p q = !(b.vram p q) := by
              rw [hb1 p q, if_pos ⟨hpw0, hq⟩]
            have hCondWs : ¬ (q = yy % 32 ∧ ∃ w ∈ ws,
                (0 < line * 2 ^ w % 256 &&& 0x80) ∧ p = (c.v x + w) % 64) := by
              rintro ⟨-, w, hwmem, -, hpcol⟩
              have hne : w ≠ w0 := fun hww => hnodup.1 (hww ▸ hwmem)
              exact col_inj (c.v x) w w0 (hmem' w hwmem) hw0 hne
                (hpcol.symm.trans hpw0)
            rw [if_neg hCondWs, hb1v,
              if_pos ⟨hq, w0, List.mem_cons_self w0 ws, hT, hpw0⟩]
          · have hb1v : b1.vram p q = b.vram p q := by
              rw [hb1 p q, if_neg (fun hcon => hpw0 hcon.1)]
            rw [hb1v]
            have hiff : (q = yy % 32 ∧ ∃ w ∈ ws,
                  (0 < line * 2 ^ w % 256 &&& 0x80) ∧ p = (c.v x + w) % 64) ↔
                (q = yy % 32 ∧ ∃ w ∈ w0 :: ws,
                  (0 < line * 2 ^ w % 256 &&& 0x80) ∧ p = (c.v x + w) % 64) := by
              constructor
              · rintro ⟨h1, w, hwmem, h2, h3⟩
                exact ⟨h1, w, List.mem_cons_of_mem _ hwmem, h2, h3⟩
              · rintro ⟨h1, w, hwmem, h2, h3⟩
                rcases List.mem_cons.mp hwmem with rfl | hwmem'
                · exact absurd h3 hpw0
                · exact ⟨h1, w, hwmem', h2, h3⟩
            exact if_congr hiff rfl rfl
        · have hb1v : b1.vram p q = b.vram p q := by
            rw [hb1 p q, if_neg (fun hcon => hq hcon.2)]
          rw [hb1v, if_neg (fun hcon => hq hcon.1 : ¬ (q = yy % 32 ∧ ∃ w ∈ ws,
              (0 < line * 2 ^ w % 256 &&& 0x80) ∧ p = (c.v x + w) % 64)),
            if_neg (fun hcon => hq hcon.1)]
      · intro r
        rw [ihr r]
        simp only [hc1x]
        have hbv : ∀ w ∈ ws, b1.vram ((c.v x + w) % 64) (yy % 32) =
            b.vram ((c.v x + w) % 64) (yy % 32) := by
          intro w hw
          rw [hb1]
          have hne : w ≠ w0 := fun hww => hnodup.1 (hww ▸ hw)
          exact if_neg (fun hcon =>
            col_inj (c.v x) w w0 (hmem' w hw) hw0 hne hcon.1)
        by_cases hr : r = 0xF
        · by_cases hC : ∃ w ∈ ws, (0 < line * 2 ^ w % 256 &&& 0x80) ∧
              b.vram ((c.v x + w) % 64) (yy % 32) = true
          · obtain ⟨w, hwmem, hTw, hvw⟩ := hC
            rw [if_pos ⟨hr, w, hwmem, hTw, (hbv w hwmem).trans hvw⟩,
              if_pos ⟨hr, w, List.mem_cons_of_mem _ hwmem, hTw, hvw⟩]
          · have hC1 : ¬ (r = 0xF ∧ ∃ w ∈ ws,
                (0 < line * 2 ^ w % 256 &&& 0x80) ∧
                b1.vram ((c.v x + w) % 64) (yy % 32) = true) := by
              rintro ⟨-, w, hwmem, hTw, hvw⟩
              exact hC ⟨w, hwmem, hTw, (hbv w hwmem).symm.trans hvw⟩
            rw [if_neg hC1, hc1 r]
            by_cases hpix : b.vram ((c.v x + w0) % 64) (yy % 32) = true
            · rw [if_pos ⟨hr, hpix⟩,
                if_pos ⟨hr, w0, List.mem_cons_self w0 ws, hT, hpix⟩]
            · rw [if_neg (fun hcon => hpix hcon.2)]
              have hCons : ¬ (r = 0xF ∧ ∃ w ∈ w0 :: ws,
                  (0 < line * 2 ^ w % 256 &&& 0x80) ∧
                  b.vram ((c.v x + w) % 64) (yy % 32) = true) := by
                rintro ⟨-, w, hwmem, hTw, hvw⟩
                rcases List.mem_cons.mp hwmem with rfl | hwmem'
                · exact hpix hvw
                · exact hC ⟨w, hwmem', hTw, hvw⟩
              rw [if_neg hCons]
        · rw [if_neg (fun hcon => hr hcon.1), if_neg (fun hcon => hr hcon.1),
            hc1 r, if_neg (fun hcon => hr hcon.1)]
    · rw [draw_pixel_eq_of_not x yy line (c, b) w0 hT]
      obtain ⟨ihv, ihr⟩ := ih c b hmem' hnodup.2
      constructor
      · intro p q
        rw [ihv p q]
        refine if_congr (and_congr_right fun _ => ?_) rfl rfl
        constructor
        · rintro ⟨w, hwmem, h2, h3⟩
          exact ⟨w, List.mem_cons_of_mem _ hwmem, h2, h3⟩
        · rintro ⟨w, hwmem, h2, h3⟩
          rcases List.mem_cons.mp hwmem with rfl | hwmem'
          · exact absurd h2 hT
          · exact ⟨w, hwmem', h2, h3⟩
      · intro r
        rw [ihr r]
        refine if_congr (and_congr_right fun _ => ?_) rfl rfl
        constructor
        · rintro ⟨w, hwmem, h2, h3⟩
          exact ⟨w, List.mem_cons_of_mem _ hwmem, h2, h3⟩
        · rintro ⟨w, hwmem, h2, h3⟩
          rcases List.mem_cons.mp hwmem with rfl | hwmem'
          · exact absurd h2 hT
          · exact ⟨w, hwmem', h2, h3⟩

lemma row_inj (vy h n : Nat) (hh : h < n) (hn : n ≤ 15) :
    (vy + h) % 32 ≠ (vy + n) % 32 := by omega

/-- Characterization of the DXYN row loop started at an arbitrary state:
with at most 16 rows (row targets distinct mod 32) and all sprite reads in
range, the loop succeeds, XORs exactly the targeted cells, and sets the flag
to 1 exactly when some targeted cell was set at entry (otherwise every
register keeps its entry value). `i` and the memory are untouched. -/
lemma dxyn_fold_char (x y : Nat) (hx15 : x ≠ 0xF) (hy15 : y ≠ 0xF) :
    ∀ (n : Nat), n ≤ 16 →
    ∀ (c : Cpu) (b : Bus),
      (∀ h, h < n → (c.i + h) % 65536 < 0x1000) →
      ∃ c' b', (List.range n).foldlM (dxyn_row x y) (c, b) = some (c', b') ∧
        (∀ p q, b'.vram p q =
            if ∃ h ∈ List.range n, q = (c.v y + h) % 32 ∧
                ∃ w ∈ List.range 8,
                  (0 < b.memory ((c.i + h) % 65536) * 2 ^ w % 256 &&& 0x80) ∧
                  p = (c.v x + w) % 64
            then !(b.vram p q) else b.vram p q) ∧
        (∀ r, c'.v r =
            if r = 0xF ∧ ∃ h ∈ List.range n, ∃ w ∈ List.range 8,
                (0 < b.memory ((c.i + h) % 65536) * 2 ^ w % 256 &&& 0x80) ∧
                b.vram ((c.v x + w) % 64) ((c.v y + h) % 32) = true
            then 1 else c.v r) ∧
        c'.i = c.i ∧ b'.memory = b.memory := by
  intro n
  induction n with
  | zero =>
    intro _ c b _
    exact ⟨c, b, rfl, fun p q => by simp, fun r => by simp, rfl, rfl⟩
  | succ n ih =>
    intro hn c b haddr
    obtain ⟨c1, b1, hfold, hvram1, hv1, hi1, hmem1⟩ :=
      ih (by omega) c b (fun h hh => haddr h (by omega))
    have hc1y : c1.v y = c.v y := by
      rw [hv1 y, if_neg (fun hcon => hy15 hcon.1)]
    have hc1x : c1.v x = c.v x := by
      rw [hv1 x, if_neg (fun hcon => hx15 hcon.1)]
    have hline : b1.read_byte ((c1.i + n) % 65536) =
        some (b.memory ((c.i + n) % 65536)) := by
      rw [hi1, Bus.read_byte, if_pos (haddr n (by omega)), hmem1]
    have hrow : dxyn_row x y (c1, b1) n =
        some (draw_row x ((c.v y + n) % 256)
          (b.memory ((c.i + n) % 65536)) (c1, b1)) := by
      unfold dxyn_row
      dsimp only
      rw [hline, hc1y]
    have e32 : (c.v y + n) % 256 % 32 = (c.v y + n) % 32 :=
      Nat.mod_mod_of_dvd _ (by norm_num)
    obtain ⟨hvram2, hv2⟩ := draw_fold_char x ((c.v y + n) % 256)
      (b.memory ((c.i + n) % 65536)) hx15 (List.range 8) c1 b1
      (fun w hw => List.mem_range.mp hw) (List.nodup_range 8)
    -- the final state of the row loop
    obtain ⟨⟨c2, b2⟩, hst2⟩ : ∃ st2, (List.range 8).foldl
        (draw_pixel x ((c.v y + n) % 256) (b.memory ((c.i + n) % 65536)))
        (c1, b1) = st2 := ⟨_, rfl⟩
    rw [hst2] at hvram2 hv2
    refine ⟨c2, b2, ?_, ?_, ?_, ?_, ?_⟩
    · rw [List.range_succ, List.foldlM_append, hfold]
      show (dxyn_row x y (c1, b1) n >>= fun st =>
        List.foldlM (dxyn_row x y) st []) = some (c2, b2)
      rw [hrow]
      show some (draw_row x ((c.v y + n) % 256)
        (b.memory ((c.i + n) % 65536)) (c1, b1)) = some (c2, b2)
      rw [draw_row, hst2]
    · intro p q
      rw [hvram2 p q]
      simp only [hc1x, e32]
      by_cases hq : q = (c.v y + n) % 32
      · have hb1v : b1.vram p q = b.vram p q := by
          rw [hvram1 p q]
          refine if_neg ?_
          rintro ⟨h, hhmem, hqrow, -⟩
          exact row_inj (c.v y) h n (List.mem_range.mp hhmem) (by omega)
            (hqrow.symm.trans hq)
        by_cases hW : ∃ w ∈ List.range 8,
            (0 < b.memory ((c.i + n) % 65536) * 2 ^ w % 256 &&& 0x80) ∧
            p = (c.v x + w) % 64
        · have hCond : ∃ h ∈ List.range (n + 1), q = (c.v y + h) % 32 ∧
              ∃ w ∈ List.range 8,
                (0 < b.memory ((c.i + h) % 65536) * 2 ^ w % 256 &&& 0x80) ∧
                p = (c.v x + w) % 64 := by
            obtain ⟨w, hwmem, hTw, hpw⟩ := hW
            exact ⟨n, List.mem_range.mpr (by omega), hq, w, hwmem, hTw, hpw⟩
          rw [if_pos ⟨hq, hW⟩, hb1v, if_pos hCond]
        · rw [if_neg (fun hcon => hW hcon.2), hb1v]
          refine (if_neg ?_).symm
          rintro ⟨h, hhmem, hqrow, hrest⟩
          have hh : h < n + 1 := List.mem_range.mp hhmem
          rcases Nat.lt_succ_iff_lt_or_eq.mp hh with hh' | rfl
          · exact row_inj (c.v y) h n hh' (by omega) (hqrow.symm.trans hq)
          · exact hW hrest
      · rw [if_neg (fun hcon => hq hcon.1), hvram1 p q]
        refine (if_congr ?_ rfl rfl).symm
        constructor
        · rintro ⟨h, hhmem, hqrow, hrest⟩
          have hh : h < n + 1 := List.mem_range.mp hhmem
          rcases Nat.lt_succ_iff_lt_or_eq.mp hh with hh' | rfl
          · exact ⟨h, List.mem_range.mpr hh', hqrow, hrest⟩
          · exact absurd hqrow hq
        · rintro ⟨h, hhmem, hqrow, hrest⟩
          exact ⟨h, List.mem_range.mpr (by
            have := List.mem_range.mp hhmem; omega), hqrow, hrest⟩
    · intro r
      rw [hv2 r]
      simp only [hc1x, e32]
      have hbvn : ∀ w, b1.vram ((c.v x + w) % 64) ((c.v y + n) % 32) =
          b.vram ((c.v x + w) % 64) ((c.v y + n) % 32) := by
        intro w
        rw [hvram1]
        refine if_neg ?_
        rintro ⟨h, hhmem, hqrow, -⟩
        exact row_inj (c.v y) h n (List.mem_range.mp hhmem) (by omega)
          hqrow.symm
      by_cases hr : r = 0xF
      · by_cases hWn : ∃ w ∈ List.range 8,
            (0 < b.memory ((c.i + n) % 65536) * 2 ^ w % 256 &&& 0x80) ∧
            b.vram ((c.v x + w) % 64) ((c.v y + n) % 32) = true
        · obtain ⟨w, hwmem, hTw, hvw⟩ := hWn
          rw [if_pos ⟨hr, w, hwmem, hTw, (hbvn w).trans hvw⟩,
            if_pos ⟨hr, n, List.mem_range.mpr (by omega), w, hwmem, hTw, hvw⟩]
        · have hC1 : ¬ (r = 0xF ∧ ∃ w ∈ List.range 8,
              (0 < b.memory ((c.i + n) % 65536) * 2 ^ w % 256 &&& 0x80) ∧
              b1.vram ((c.v x + w) % 64) ((c.v y + n) % 32) = true) := by
            rintro ⟨-, w, hwmem, hTw, hvw⟩
            exact hWn ⟨w, hwmem, hTw, (hbvn w).symm.trans hvw⟩
          rw [if_neg hC1, hv1 r]
          refine (if_congr (and_congr_right fun _ => ?_) rfl rfl).symm
          constructor
          · rintro ⟨h, hhmem, hrest⟩
            have hh : h < n + 1 := List.mem_range.mp hhmem
            rcases Nat.lt_succ_iff_lt_or_eq.mp hh with hh' | rfl
            · exact ⟨h, List.mem_range.mpr hh', hrest⟩
            · exact absurd hrest hWn
          · rintro ⟨h, hhmem, hrest⟩
            exact ⟨h, List.mem_range.mpr (by
              have := List.mem_range.mp hhmem; omega), hrest⟩
      · rw [if_neg (fun hcon => hr hcon.1), hv1 r,
          if_neg (fun hcon => hr hcon.1), if_neg (fun hcon => hr hcon.1)]
    · have := dxyn_row_pres x y (c1, b1) (c2, b2) n (by rw [hrow, draw_row, hst2])
      exact this.2.1.trans hi1
    · have := dxyn_row_pres x y (c1, b1) (c2, b2) n (by rw [hrow, draw_row, hst2])
      exact this.2.2.2.2.1.trans hmem1

/-- Full characterization of DXYN (coordinate registers distinct from the
flag, at most 16 rows, sprite reads in range): the flag is first reset, the
targeted cells are XORed, and the final flag is 1 exactly when some targeted
cell was set before the draw. -/
lemma opcode_dxyn_char (c : Cpu) (b : Bus) (x y n : Nat) (hx15 : x ≠ 0xF)
    (hy15 : y ≠ 0xF) (hn : n ≤ 16)
    (haddr : ∀ h, h < n → (c.i + h) % 65536 < 0x1000) :
    ∃ c' b', c.opcode_dxyn b x y n = some (c', b') ∧
      (∀ p q, b'.vram p q =
          if ∃ h ∈ List.range n, q = (c.v y + h) % 32 ∧ ∃ w ∈ List.range 8,
              (0 < b.memory ((c.i + h) % 65536) * 2 ^ w % 256 &&& 0x80) ∧
              p = (c.v x + w) % 64
          then !(b.vram p q) else b.vram p q) ∧
      (∀ r, c'.v r =
          if r = 0xF ∧ ∃ h ∈ List.range n, ∃ w ∈ List.range 8,
              (0 < b.memory ((c.i + h) % 65536) * 2 ^ w % 256 &&& 0x80) ∧
              b.vram ((c.v x + w) % 64) ((c.v y + h) % 32) = true
          then 1 else vset c.v 0xF 0x0 r) ∧
      c'.i = c.i ∧ b'.memory = b.memory := by
  obtain ⟨c', b', hfold, hvram, hv, hi, hmem⟩ :=
    dxyn_fold_char x y hx15 hy15 n hn { c with v := vset c.v 0xF 0x0 } b haddr
  have hxv : vset c.v 0xF 0x0 x = c.v x := by simp [vset, hx15]
  have hyv : vset c.v 0xF 0x0 y = c.v y := by simp [vset, hy15]
  simp only [hxv, hyv] at hvram hv
  exact ⟨c', b', hfold, hvram, hv, hi, hmem⟩

/-- Claim C5, counterexample: the claim as stated imposes no condition on
the coordinate registers, but for `x = 0xF` the flag write during the second
(colliding) draw shifts the x coordinate mid-draw. Concretely: `i = 0x500`,
`memory[0x500] = 0xC0` (two pixels), `v[0] = 0` as the y register, cleared
screen; after drawing DXYN (x = 0xF, y = 0, N = 1) twice, pixel (2, 0) is
set — the pre-draw all-unset state is NOT restored. -/
theorem claim_C5_counterexample :
    ((({ Cpu.new with i := 0x500 } : Cpu).opcode_dxyn
        { Bus.new [] with memory := fun a => if a = 0x500 then 0xC0 else 0 }
        15 0 1).bind fun s => s.1.opcode_dxyn s.2 15 0 1).map
      (fun s => s.2.vram 2 0) = some true ∧
    (({ Cpu.new with i := 0x500 } : Cpu).opcode_dxyn
        { Bus.new [] with memory := fun a => if a = 0x500 then 0xC0 else 0 }
        15 0 1).map (fun s => s.2.vram 2 0) = some false := by
  constructor
  · rfl
  · rfl

/-- Claim C5, amended: starting from a cleared screen, for coordinate
register indices other than 0xF (the counterexample shows `x = 0xF` breaks
restoration), with the N sprite reads in range, drawing the identical DXYN
twice restores the all-unset screen; `v[F]` is reset at the start of the
instruction and is therefore 0 after the first draw for every N (no set
pixel exists to collide with), and after the second draw `v[F] = 1` exactly
when the sprite has at least one set bit among its N rows (the collision),
0 for a blank sprite. -/
theorem claim_C5_amended (c : Cpu) (b : Bus) (x y n : Nat)
    (hx15 : x ≠ 0xF) (hy15 : y ≠ 0xF) (hn : n ≤ 16)
    (haddr : ∀ h, h < n → (c.i + h) % 65536 < 0x1000)
    (hclear : ∀ p q, b.vram p q = false) :
    ∃ c1 b1 c2 b2,
      c.opcode_dxyn b x y n = some (c1, b1) ∧
      c1.opcode_dxyn b1 x y n = some (c2, b2) ∧
      c1.v 0xF = 0 ∧
      (∀ p q, b2.vram p q = false) ∧
      (c2.v 0xF = if ∃ h ∈ List.range n, ∃ w ∈ List.range 8,
          0 < b.memory ((c.i + h) % 65536) * 2 ^ w % 256 &&& 0x80
        then 1 else 0) := by
  obtain ⟨c1, b1, h1, hvram1, hv1, hi1, hmem1⟩ :=
    opcode_dxyn_char c b x y n hx15 hy15 hn haddr
  have hc1x : c1.v x = c.v x := by
    rw [hv1 x, if_neg (fun hcon => hx15 hcon.1)]
    simp [vset, hx15]
  have hc1y : c1.v y = c.v y := by
    rw [hv1 y, if_neg (fun hcon => hy15 hcon.1)]
    simp [vset, hy15]
  have hc1F : c1.v 0xF = 0 := by
    rw [hv1 0xF, if_neg ?_]
    · simp [vset]
    · rintro ⟨-, h, -, w, -, -, hvw⟩
      rw [hclear] at hvw
      cases hvw
  have haddr2 : ∀ h, h < n → (c1.i + h) % 65536 < 0x1000 := by
    intro h hh
    rw [hi1]
    exact haddr h hh
  obtain ⟨c2, b2, h2, hvram2, hv2, hi2, hmem2⟩ :=
    opcode_dxyn_char c1 b1 x y n hx15 hy15 hn haddr2
  simp only [hc1x, hc1y, hi1, hmem1] at hvram2 hv2
  refine ⟨c1, b1, c2, b2, h1, h2, hc1F, ?_, ?_⟩
  · intro p q
    have hb1 : b1.vram p q =
        (if ∃ h ∈ List.range n, q = (c.v y + h) % 32 ∧ ∃ w ∈ List.range 8,
            (0 < b.memory ((c.i + h) % 65536) * 2 ^ w % 256 &&& 0x80) ∧
            p = (c.v x + w) % 64
         then true else false) := by
      rw [hvram1 p q, hclear]
      by_cases hC : ∃ h ∈ List.range n, q = (c.v y + h) % 32 ∧
          ∃ w ∈ List.range 8,
            (0 < b.memory ((c.i + h) % 65536) * 2 ^ w % 256 &&& 0x80) ∧
            p = (c.v x + w) % 64
      · rw [if_pos hC, if_pos hC]
        rfl
      · rw [if_neg hC, if_neg hC]
    rw [hvram2 p q]
    by_cases hC : ∃ h ∈ List.range n, q = (c.v y + h) % 32 ∧
        ∃ w ∈ List.range 8,
          (0 < b.memory ((c.i + h) % 65536) * 2 ^ w % 256 &&& 0x80) ∧
          p = (c.v x + w) % 64
    · rw [if_pos hC, hb1, if_pos hC]
      rfl
    · rw [if_neg hC, hb1, if_neg hC]
  · rw [hv2 0xF]
    by_cases hS : ∃ h ∈ List.range n, ∃ w ∈ List.range 8,
        0 < b.memory ((c.i + h) % 65536) * 2 ^ w % 256 &&& 0x80
    · obtain ⟨h, hhmem, w, hwmem, hT⟩ := hS
      have hb1v : b1.vram ((c.v x + w) % 64) ((c.v y + h) % 32) = true := by
        rw [hvram1, if_pos ⟨h, hhmem, rfl, w, hwmem, hT, rfl⟩, hclear]
        rfl
      rw [if_pos ⟨rfl, h, hhmem, w, hwmem, hT, hb1v⟩,
        if_pos ⟨h, hhmem, w, hwmem, hT⟩]
    · have hno : ¬ (0xF = 0xF ∧ ∃ h ∈ List.range n, ∃ w ∈ List.range 8,
          (0 < b.memory ((c.i + h) % 65536) * 2 ^ w % 256 &&& 0x80) ∧
          b1.vram ((c.v x + w) % 64) ((c.v y + h) % 32) = true) := by
        rintro ⟨-, h, hhmem, w, hwmem, hT, -⟩
        exact hS ⟨h, hhmem, w, hwmem, hT⟩
      rw [if_neg hno, if_neg hS]
      simp [vset]

/-- CPU for the C5 witness: sprite base `i = 0x500`. -/
def cpuC5 : Cpu := { Cpu.new with i := 0x500 }

/-- Bus for the C5 witness: a single-pixel sprite row at 0x500, cleared
screen. -/
def busC5 : Bus :=
  { memory := fun a => if a = 0x500 then 0x80 else 0,
    vram := fun _ _ => false, keys := fun _ => false, delay := 0, beep := 0 }

/-- Witness for `claim_C5_amended` with `x = 0`, `y = 1`, `N = 1`. -/
theorem claim_C5_witness :
    ((0 : Nat) ≠ 0xF ∧ (1 : Nat) ≠ 0xF ∧ (1 : Nat) ≤ 16 ∧
      (∀ h, h < 1 → (cpuC5.i + h) % 65536 < 0x1000) ∧
      (∀ p q, busC5.vram p q = false)) ∧
    (∃ c1 b1 c2 b2,
      cpuC5.opcode_dxyn busC5 0 1 1 = some (c1, b1) ∧
      c1.opcode_dxyn b1 0 1 1 = some (c2, b2) ∧
      c1.v 0xF = 0 ∧
      (∀ p q, b2.vram p q = false) ∧
      (c2.v 0xF = if ∃ h ∈ List.range 1, ∃ w ∈ List.range 8,
          0 < busC5.memory ((cpuC5.i + h) % 65536) * 2 ^ w % 256 &&& 0x80
        then 1 else 0)) :=
  ⟨⟨by decide, by decide, by decide, by decide, fun _ _ => rfl⟩,
   claim_C5_amended cpuC5 busC5 0 1 1 (by decide) (by decide) (by decide)
     (by decide) (fun _ _ => rfl)⟩

/-- CPU for the C8 witness: base address `i = 0x500`. -/
def cpuC8 : Cpu := { Cpu.new with i := 0x500 }

/-- Witness for `claim_C8_amended` at `i = 0x500`, `x = 3`. -/
theorem claim_C8_witness :
    ((3 : Nat) < 16 ∧ cpuC8.i + 3 < 0x1000) ∧
    (∃ c1 b1 c2 b2,
      cpuC8.opcode_fx55 (Bus.new []) 3 = some (c1, b1) ∧
      Cpu.opcode_fx65 { c1 with i := cpuC8.i } b1 3 = some (c2, b2) ∧
      (∀ r, c2.v r = cpuC8.v r) ∧
      c1.i = (cpuC8.i + 3 + 1) % 0x1000 ∧
      c2.i = (cpuC8.i + 3 + 1) % 0x1000) :=
  ⟨⟨by decide, by decide⟩,
   claim_C8_amended cpuC8 (Bus.new []) 3 (by decide) (by decide)⟩

end Chip8
